import Mathlib

/-!
Shallow embedding of the post-transfer core of `mastodon-to-bluesky`
(`src/mastodon_to_bluesky/transfer.py` and `models.py`).

Text is modelled as `List Char` (Python `str` under `len` and slicing is a
character sequence); machine integers do not occur.  Fallible collaborator
calls return `Except`.  Wall-clock time (`datetime.now()`) is passed in as an
explicit `now : Nat` parameter, and timestamps are `Nat`.
-/

namespace M2B

/-- Python `\s` / `str.split()` whitespace characters. -/
def isPySpace (c : Char) : Bool :=
  c = ' ' ∨ c = '\t' ∨ c = '\n' ∨ c = '\r' ∨ c = '\x0b' ∨ c = '\x0c'

/-- The sentence-terminating punctuation of the regex `(?<=[.!?])\s+`. -/
def isSentEnd (c : Char) : Bool :=
  c = '.' ∨ c = '!' ∨ c = '?'

/-- Whether the last character read so far (head of the reversed
accumulator) is sentence-ending punctuation. -/
def accEndsSent (acc : List Char) : Bool :=
  match acc with
  | [] => false
  | c :: _ => isSentEnd c

mutual

/-- Scanner for `re.split(r"(?<=[.!?])\s+", text)`: `acc` holds the current
sentence reversed; a whitespace character preceded by `.`/`!`/`?` starts a
separator run. -/
def sentAux : List Char → List Char → List (List Char)
  | [], acc => [acc.reverse]
  | c :: rest, acc =>
    if isPySpace c ∧ accEndsSent acc then
      acc.reverse :: sentSkip rest
    else
      sentAux rest (c :: acc)

/-- Consumes the rest of a separator whitespace run, then starts the next
sentence. -/
def sentSkip : List Char → List (List Char)
  | [] => [[]]
  | c :: rest =>
    if isPySpace c then sentSkip rest
    else sentAux rest [c]

end

/-- `re.split(r"(?<=[.!?])\s+", text)` from `_split_text`. -/
def splitSentences (text : List Char) : List (List Char) :=
  sentAux text []

/-- Python `str.split()` (split on whitespace runs, dropping empties),
used for the word-level fallback in `_split_text`. -/
def pyWordsAux : List Char → List Char → List (List Char)
  | [], acc => if acc = [] then [] else [acc.reverse]
  | c :: rest, acc =>
    if isPySpace c then
      if acc = [] then pyWordsAux rest []
      else acc.reverse :: pyWordsAux rest []
    else
      pyWordsAux rest (c :: acc)

def pyWords (s : List Char) : List (List Char) :=
  pyWordsAux s []

/-- The literal `"..."` appended/prepended by `_split_text`. -/
def dots : List Char := ['.', '.', '.']

/-- `current_chunk += (" " if current_chunk else "") + piece`. -/
def growChunk (cc piece : List Char) : List Char :=
  cc ++ (if cc = [] then [] else [' ']) ++ piece

/-- The inner word loop of `_split_text` (taken for a sentence longer than
`max_length`).  State: emitted `chunks` and the `current_chunk`.  The length
comparison is over `Int`, mirroring Python's `len(current_chunk) + len(word)
+ 1 <= max_length - 10`. -/
def splitWords (maxLength : Nat) :
    List (List Char) → List Char → List (List Char) → List (List Char) × List Char
  | chunks, cc, [] => (chunks, cc)
  | chunks, cc, w :: ws =>
    if (cc.length + w.length + 1 : Int) ≤ (maxLength : Int) - 10 then
      splitWords maxLength chunks (growChunk cc w) ws
    else
      let chunks' := if cc = [] then chunks else chunks ++ [cc ++ dots]
      splitWords maxLength chunks' (dots ++ w) ws

/-- The sentence loop of `_split_text`. -/
def splitSents (maxLength : Nat) :
    List (List Char) → List Char → List (List Char) → List (List Char) × List Char
  | chunks, cc, [] => (chunks, cc)
  | chunks, cc, s :: ss =>
    if (maxLength : Int) < (s.length : Int) then
      let r := splitWords maxLength chunks cc (pyWords s)
      splitSents maxLength r.1 r.2 ss
    else if (cc.length + s.length + 1 : Int) ≤ (maxLength : Int) - 10 then
      splitSents maxLength chunks (growChunk cc s) ss
    else
      let chunks' := if cc = [] then chunks else chunks ++ [cc ++ dots]
      splitSents maxLength chunks' (dots ++ s) ss

/-- `TransferManager._split_text` up to (but not including) the
`[i/N]` thread-indicator prefixing: the local `chunks` list right before
“Add thread indicators”. -/
def splitTextChunks (text : List Char) (maxLength : Nat) : List (List Char) :=
  if text.length ≤ maxLength then [text]
  else
    (splitSents maxLength [] [] (splitSentences text)).1 ++
      (if (splitSents maxLength [] [] (splitSentences text)).2 = [] then []
       else [(splitSents maxLength [] [] (splitSentences text)).2])

/-- The `f"[{i+1}/{len(chunks)}] {chunk}"` thread-indicator prefix. -/
def addMarker (n i : Nat) (c : List Char) : List Char :=
  ('[' :: (Nat.repr (i + 1)).toList) ++ ('/' :: (Nat.repr n).toList) ++ (']' :: ' ' :: c)

/-- `TransferManager._split_text` on character lists. -/
def splitTextList (text : List Char) (maxLength : Nat) : List (List Char) :=
  let chunks := splitTextChunks text maxLength
  if 1 < chunks.length then chunks.mapIdx (fun i c => addMarker chunks.length i c)
  else chunks

/-- `TransferManager._split_text`: chunks of `text` before marker prefixing. -/
def _split_text_chunks (text : String) (maxLength : Nat) : List String :=
  (splitTextChunks text.toList maxLength).map String.mk

/-- `TransferManager._split_text`. -/
def _split_text (text : String) (maxLength : Nat) : List String :=
  (splitTextList text.toList maxLength).map String.mk

/-! ## `TransferManager._html_to_text`

The source delegates HTML parsing to BeautifulSoup and then (a) replaces
every `<br>` element with a newline, (b) inserts `"\n\n"` after every `<p>`
element, (c) takes the document text, (d) collapses runs of three or more
newlines to exactly two, and (e) strips surrounding whitespace.  We model the
BeautifulSoup steps for well-formed tag soup without entity references: a
`<br>`/`<br/>` tag yields `"\n"`, a closing `</p>` yields `"\n\n"` (the text
inserted after the paragraph element), and every other tag yields nothing. -/

/-- Tag classification: leading `/` marks a closing tag; the name is the
run of ASCII letters that follows. -/
def tagParts (t : List Char) : Bool × List Char :=
  match t with
  | '/' :: rest => (true, rest.takeWhile (fun c => c.isAlpha))
  | _ => (false, t.takeWhile (fun c => c.isAlpha))

/-- The text contributed by one tag under the transformations of
`_html_to_text`. -/
def tagText (t : List Char) : List Char :=
  let p := tagParts t
  if p.1 = false ∧ p.2 = ['b', 'r'] then ['\n']
  else if p.1 = true ∧ p.2 = ['p'] then ['\n', '\n']
  else []

/-- Document text extraction (`soup.get_text()` after the `<br>`/`<p>`
replacements): `inTag` says whether we are inside `<...>`, `tacc` holds the
tag's content reversed. -/
def extractAux : List Char → Bool → List Char → List Char
  | [], _, _ => []
  | c :: rest, false, _ =>
    if c = '<' then extractAux rest true []
    else c :: extractAux rest false []
  | c :: rest, true, tacc =>
    if c = '>' then tagText tacc.reverse ++ extractAux rest false []
    else extractAux rest true (c :: tacc)

def extractText (l : List Char) : List Char :=
  extractAux l false []

/-- Emission of a pending run of `k` newlines under
`re.sub(r"\n{3,}", "\n\n", text)`: three or more become exactly two. -/
def emitNewlines (k : Nat) : List Char :=
  if 3 ≤ k then ['\n', '\n'] else List.replicate k '\n'

def collapseAux : List Char → Nat → List Char
  | [], k => emitNewlines k
  | c :: rest, k =>
    if c = '\n' then collapseAux rest (k + 1)
    else emitNewlines k ++ (c :: collapseAux rest 0)

/-- `re.sub(r"\n{3,}", "\n\n", text)`. -/
def collapseNewlines (l : List Char) : List Char :=
  collapseAux l 0

/-- Python `str.strip()`. -/
def pyStrip (l : List Char) : List Char :=
  ((l.dropWhile isPySpace).reverse.dropWhile isPySpace).reverse

/-- `TransferManager._html_to_text`. -/
def _html_to_text (html : String) : String :=
  String.mk (pyStrip (collapseNewlines (extractText html.toList)))

/-! ## Data model (`models.py`) -/

/-- One entry of `MastodonPost.media_attachments` (a Mastodon attachment
dict; the code reads `"type"`, `"url"` and `"description"`). -/
structure Attachment where
  type : String
  url : String
  description : Option String
deriving DecidableEq

/-- `models.MastodonPost`.  `created_at : Nat` stands for the datetime. -/
structure MastodonPost where
  id : String
  content : String
  created_at : Nat
  url : String
  in_reply_to_id : Option String := none
  media_attachments : List Attachment := []
  visibility : String := "public"
  sensitive : Bool := false
  spoiler_text : String := ""
deriving DecidableEq

/-- An opaque facet dict returned by `bluesky.create_rich_text`. -/
structure Facet where
  data : String
deriving DecidableEq

/-- The `{"uri": ..., "cid": ...}` record returned by
`bluesky.create_post`. -/
structure PostRef where
  uri : String
  cid : String
deriving DecidableEq

/-- The `{"root": ..., "parent": ...}` reply linkage dict (`parent_ref`). -/
structure ReplyRef where
  root : PostRef
  parent : PostRef
deriving DecidableEq

/-- One `{"image": blob, "alt": ...}` entry of the media embed. -/
structure ImageEntry where
  image : String
  alt : Option String
deriving DecidableEq

/-- The `{"$type": "app.bsky.embed.images", "images": [...]}` embed. -/
structure Embed where
  dollarType : String
  images : List ImageEntry
deriving DecidableEq

/-- `models.BlueskyPost`. -/
structure BlueskyPost where
  text : String
  created_at : Nat
  facets : List Facet := []
  embed : Option Embed := none
  reply : Option ReplyRef := none
deriving DecidableEq

/-- `models.TransferState`.  The Python `set[str]` is a duplicate-free list;
`last_updated : Nat` stands for the datetime. -/
structure TransferState where
  last_mastodon_id : Option String := none
  transferred_ids : List String := []
  last_updated : Nat := 0
deriving DecidableEq

/-- The two network collaborators (`MastodonClient`, `BlueskyClient`) as
pure, possibly-failing operations; an `Except.error` models a raised
exception. -/
structure Env where
  download_media : String → Except String String
  upload_image : String → Except String String
  create_rich_text : String → String × List Facet
  create_post : BlueskyPost → Except String PostRef

/-! ## `TransferManager._create_media_embed` -/

/-- Per-image alt text: `attachment.get("description")` is truthy only for a
present non-empty string; it is then truncated to 1000 characters. -/
def altOf (a : Attachment) : Option String :=
  match a.description with
  | none => none
  | some d => if d = "" then none else some (d.take 1000)

/-- The image loop of `_create_media_embed`.  Returns the accumulated image
entries, the payloads handed to `upload_image` (the upload side effects),
and the first raised exception, if any.  An exception aborts the loop, as in
the source. -/
def collectImages (env : Env) : List Attachment → List ImageEntry × List String × Option String
  | [] => ([], [], none)
  | a :: rest =>
    if a.type = "image" then
      match env.download_media a.url with
      | .error e => ([], [], some e)
      | .ok image_data =>
        match env.upload_image image_data with
        | .error e => ([], [image_data], some e)
        | .ok blob =>
          let r := collectImages env rest
          (⟨blob, altOf a⟩ :: r.1, image_data :: r.2.1, r.2.2)
    else collectImages env rest

/-- `TransferManager._create_media_embed`: the embed (`none` both when no
image survived and when an exception occurred), the upload side effects, and
the exception, if any. -/
def _create_media_embed (env : Env) (attachments : List Attachment) :
    Option Embed × List String × Option String :=
  let r := collectImages env attachments
  match r.2.2 with
  | some e => (none, r.2.1, some e)
  | none =>
    (if r.1 = [] then none else some ⟨"app.bsky.embed.images", r.1⟩, r.2.1, none)

/-! ## `TransferManager._transfer_post` -/

/-- One successful destination submission: the request handed to
`bluesky.create_post` together with the `PostRef` it returned. -/
def Submission := BlueskyPost × PostRef
deriving DecidableEq

/-- The chunk loop of `_transfer_post`: `i` is the loop index, `parent_ref`
the running reply linkage.  Returns the submissions made (also the partial
ones before a failure) and the first raised exception, if any. -/
def createThread (env : Env) (created_at : Nat) (embed : Option Embed) :
    List String → Nat → Option ReplyRef → List Submission × Option String
  | [], _, _ => ([], none)
  | chunk :: rest, i, parent_ref =>
    let rt := env.create_rich_text chunk
    let bluesky_post : BlueskyPost :=
      { text := rt.1, created_at := created_at, facets := rt.2,
        embed := if i = 0 then embed else none, reply := parent_ref }
    match env.create_post bluesky_post with
    | .error e => ([], some e)
    | .ok result =>
      let parent_ref' : Option ReplyRef :=
        if i = 0 ∧ rest ≠ [] then some ⟨result, result⟩
        else
          match parent_ref with
          | some pr => some ⟨pr.root, result⟩
          | none => none
      let r := createThread env created_at embed rest (i + 1) parent_ref'
      ((bluesky_post, result) :: r.1, r.2)

/-- The final text built at the top of `_transfer_post`: HTML conversion
followed by the content-warning prefix for a truthy `spoiler_text`. -/
def post_full_text (p : MastodonPost) : String :=
  let text := _html_to_text p.content
  if p.spoiler_text = "" then text
  else "CW: " ++ p.spoiler_text ++ "\n\n" ++ text

/-- `TransferManager._transfer_post`: upload side effects, destination
submissions, and the raised exception, if any. -/
def _transfer_post (env : Env) (dry_run : Bool) (p : MastodonPost) :
    List String × List Submission × Option String :=
  let text := post_full_text p
  let posts_to_create := _split_text text 300
  let er :=
    if p.media_attachments ≠ [] ∧ dry_run = false then
      _create_media_embed env (p.media_attachments.take 4)
    else (none, [], none)
  match er.2.2 with
  | some e => (er.2.1, [], some e)
  | none =>
    let r := createThread env p.created_at er.1 posts_to_create 0 none
    (er.2.1, r.1, r.2)

/-! ## `TransferManager.transfer_posts` -/

/-- The `stats` dict. -/
structure Stats where
  processed : Nat
  transferred : Nat
  skipped : Nat
  errors : Nat
deriving DecidableEq

/-- Observable outcome of a run: the statistics, the in-memory
`TransferState`, the successive state-file writes performed by
`_save_state`, the destination submissions, and the media uploads. -/
structure RunResult where
  stats : Stats
  state : TransferState
  writes : List TransferState
  subs : List Submission
  uploads : List String
deriving DecidableEq

def initResult (st : TransferState) : RunResult :=
  ⟨⟨0, 0, 0, 0⟩, st, [], [], []⟩

/-- The body of the `for post in posts` loop of `transfer_posts`. -/
def step (env : Env) (dry_run skip_existing : Bool) (now : Nat)
    (acc : RunResult) (post : MastodonPost) : RunResult :=
  let stats1 := { acc.stats with processed := acc.stats.processed + 1 }
  if skip_existing = true ∧ acc.state.transferred_ids.contains post.id = true then
    { acc with stats := { stats1 with skipped := stats1.skipped + 1 } }
  else if dry_run = true then
    { acc with stats := { stats1 with transferred := stats1.transferred + 1 } }
  else
    let r := _transfer_post env dry_run post
    match r.2.2 with
    | none =>
      let st' : TransferState :=
        { last_mastodon_id := some post.id,
          transferred_ids := acc.state.transferred_ids.insert post.id,
          last_updated := now }
      { stats := { stats1 with transferred := stats1.transferred + 1 },
        state := st', writes := acc.writes ++ [st'],
        subs := acc.subs ++ r.2.1, uploads := acc.uploads ++ r.1 }
    | some _ =>
      let stats2 := { stats1 with errors := stats1.errors + 1 }
      { acc with
        stats := stats2,
        subs := acc.subs ++ r.2.1,
        uploads := acc.uploads ++ r.1 }

/-- The post loop of `transfer_posts`. -/
def runPosts (env : Env) (dry_run skip_existing : Bool) (now : Nat) :
    RunResult → List MastodonPost → RunResult
  | acc, [] => acc
  | acc, p :: ps => runPosts env dry_run skip_existing now (step env dry_run skip_existing now acc p) ps

/-- `TransferManager.transfer_posts`, applied to the already-fetched post
list: an empty fetch returns zero statistics immediately; otherwise the list
is reversed (`posts.reverse()`) and processed in order. -/
def transfer_posts (env : Env) (dry_run skip_existing : Bool) (now : Nat)
    (st : TransferState) (posts : List MastodonPost) : RunResult :=
  if posts.isEmpty then initResult st
  else runPosts env dry_run skip_existing now (initResult st) posts.reverse

/-! ## `TransferManager._load_state`

File interaction is shallow: the state-file condition is `none` (the file
does not exist), `some none` (it exists but reading/parsing it raises), or
`some (some s)` (it parses as `s`).  The `Bool` result records whether the
`Warning: Could not load state file` message was printed; `now` stands for
the `datetime.now()` default of a fresh `TransferState`. -/
def _load_state (now : Nat) : Option (Option TransferState) → TransferState × Bool
  | none => (⟨none, [], now⟩, false)
  | some none => (⟨none, [], now⟩, true)
  | some (some s) => (s, false)

/-! ## Derived observations used in the statements -/

/-- Processing the post raises no exception (with `dry_run = False`, as in
the non-dry branch of `transfer_posts`). -/
abbrev succeeds (env : Env) (p : MastodonPost) : Prop :=
  (_transfer_post env false p).2.2 = none

/-- The image list of an optional embed (`none` has no images). -/
def embedImages : Option Embed → List ImageEntry
  | none => []
  | some e => e.images

/-- The image entry `_create_media_embed` builds for an attachment whose
download and upload both succeed (junk otherwise). -/
def entryOf (env : Env) (a : Attachment) : ImageEntry :=
  match env.download_media a.url with
  | .ok d =>
    match env.upload_image d with
    | .ok blob => ⟨blob, altOf a⟩
    | .error _ => ⟨"", none⟩
  | .error _ => ⟨"", none⟩

/-! ## Concrete collaborators and posts for witnesses and counterexamples -/

/-- Collaborators that always succeed: downloads and uploads echo their
argument, rich-text tokenization is the identity with no facets, and every
created post gets the same ref. -/
def envOk : Env :=
  { download_media := fun u => .ok u,
    upload_image := fun d => .ok d,
    create_rich_text := fun s => (s, []),
    create_post := fun _ => .ok ⟨"uri1", "cid1"⟩ }

/-- Collaborators whose post creation always raises. -/
def envFail : Env :=
  { envOk with create_post := fun _ => .error "network down" }

/-- Collaborators whose post creation raises exactly on the text `"boom"`. -/
def envSel : Env :=
  { envOk with
    create_post := fun bp =>
      if bp.text = "boom" then .error "boom" else .ok ⟨"uri1", "cid1"⟩ }

def st0 : TransferState := ⟨none, [], 0⟩

def pA : MastodonPost := { id := "1", content := "Alpha post", created_at := 1, url := "uA" }

def pB : MastodonPost := { id := "2", content := "Beta post", created_at := 2, url := "uB" }

def pC : MastodonPost := { id := "3", content := "boom", created_at := 3, url := "uC" }

def pX : MastodonPost := { id := "4", content := "hello", created_at := 4, url := "uX" }

/-- One non-image attachment followed by five images. -/
def p6 : MastodonPost :=
  { id := "6", content := "x", created_at := 6, url := "u6",
    media_attachments :=
      [⟨"video", "v0", none⟩, ⟨"image", "u1", none⟩, ⟨"image", "u2", none⟩,
       ⟨"image", "u3", none⟩, ⟨"image", "u4", none⟩, ⟨"image", "u5", none⟩] }

def pCW : MastodonPost :=
  { id := "7", content := "hello", created_at := 7, url := "u7", spoiler_text := "s" }

def lorem : String := "Lorem ipsum dolor sit amet consectetur. "

/-- A 360-character text of 39-character sentences: splits into two chunks. -/
def wtext : String :=
  lorem ++ lorem ++ lorem ++ lorem ++ lorem ++ lorem ++ lorem ++ lorem ++ lorem

def pLong : MastodonPost := { id := "9", content := wtext, created_at := 9, url := "u9" }

/-- A single 301-character word. -/
def tC1 : String := String.mk (List.replicate 301 'a')

/-- The first submission `_transfer_post envOk false p6` makes. -/
def xW : Submission :=
  (⟨"x", 6, [],
    some ⟨"app.bsky.embed.images", [⟨"u1", none⟩, ⟨"u2", none⟩, ⟨"u3", none⟩]⟩,
    none⟩,
   ⟨"uri1", "cid1"⟩)

end M2B

set_option maxRecDepth 40000

namespace M2B

/-! # Lemmas about one loop iteration and about whole runs -/

theorem step_processed (env : Env) (d s : Bool) (now : Nat) (acc : RunResult) (p : MastodonPost) :
    (step env d s now acc p).stats.processed = acc.stats.processed + 1 := by
  unfold step
  split
  · rfl
  · split
    · rfl
    · rcases h : (_transfer_post env d p).2.2 with _ | e <;> simp [h]

theorem step_sum (env : Env) (d s : Bool) (now : Nat) (acc : RunResult) (p : MastodonPost) :
    (step env d s now acc p).stats.transferred + (step env d s now acc p).stats.skipped
        + (step env d s now acc p).stats.errors
      = acc.stats.transferred + acc.stats.skipped + acc.stats.errors + 1 := by
  unfold step
  split
  · simp; omega
  · split
    · simp; omega
    · rcases h : (_transfer_post env d p).2.2 with _ | e <;> simp [h] <;> omega

theorem runPosts_cons (env : Env) (d s : Bool) (now : Nat) (acc : RunResult)
    (p : MastodonPost) (ps : List MastodonPost) :
    runPosts env d s now acc (p :: ps) = runPosts env d s now (step env d s now acc p) ps := rfl

theorem runPosts_append (env : Env) (d s : Bool) (now : Nat) (l1 l2 : List MastodonPost) :
    ∀ acc, runPosts env d s now acc (l1 ++ l2)
      = runPosts env d s now (runPosts env d s now acc l1) l2 := by
  induction l1 with
  | nil => intro acc; rfl
  | cons p ps ih => intro acc; simpa [runPosts] using ih (step env d s now acc p)

theorem run_processed (env : Env) (d s : Bool) (now : Nat) :
    ∀ (ps : List MastodonPost) (acc : RunResult),
      (runPosts env d s now acc ps).stats.processed = acc.stats.processed + ps.length := by
  intro ps
  induction ps with
  | nil => intro acc; simp [runPosts]
  | cons p ps ih =>
    intro acc
    rw [runPosts_cons, ih, step_processed]
    simp; omega

theorem run_sum (env : Env) (d s : Bool) (now : Nat) :
    ∀ (ps : List MastodonPost) (acc : RunResult),
      (runPosts env d s now acc ps).stats.transferred
          + (runPosts env d s now acc ps).stats.skipped
          + (runPosts env d s now acc ps).stats.errors
        = acc.stats.transferred + acc.stats.skipped + acc.stats.errors + ps.length := by
  intro ps
  induction ps with
  | nil => intro acc; simp [runPosts]
  | cons p ps ih =>
    intro acc
    rw [runPosts_cons, ih, step_sum]
    simp
    omega

theorem step_dry (env : Env) (s : Bool) (now : Nat) (acc : RunResult) (p : MastodonPost) :
    (step env true s now acc p).state = acc.state ∧
    (step env true s now acc p).writes = acc.writes ∧
    (step env true s now acc p).subs = acc.subs ∧
    (step env true s now acc p).uploads = acc.uploads ∧
    (step env true s now acc p).stats.errors = acc.stats.errors := by
  unfold step
  split
  · exact ⟨rfl, rfl, rfl, rfl, rfl⟩
  · rw [if_pos rfl]
    exact ⟨rfl, rfl, rfl, rfl, rfl⟩

theorem run_dry (env : Env) (s : Bool) (now : Nat) :
    ∀ (ps : List MastodonPost) (acc : RunResult),
      (runPosts env true s now acc ps).state = acc.state ∧
      (runPosts env true s now acc ps).writes = acc.writes ∧
      (runPosts env true s now acc ps).subs = acc.subs ∧
      (runPosts env true s now acc ps).uploads = acc.uploads ∧
      (runPosts env true s now acc ps).stats.errors = acc.stats.errors := by
  intro ps
  induction ps with
  | nil => intro acc; exact ⟨rfl, rfl, rfl, rfl, rfl⟩
  | cons p ps ih =>
    intro acc
    rw [runPosts_cons]
    obtain ⟨h1, h2, h3, h4, h5⟩ := ih (step env true s now acc p)
    obtain ⟨g1, g2, g3, g4, g5⟩ := step_dry env s now acc p
    exact ⟨h1.trans g1, h2.trans g2, h3.trans g3, h4.trans g4, h5.trans g5⟩

/-! # Claim theorems -/

/-- **C7** (confirmed).  With `dry_run` enabled, `transfer_posts` creates no
destination post (`subs = []`), uploads no media (`uploads = []`), leaves
the in-memory `TransferState` untouched, and never calls `_save_state`
(`writes = []`), so the state file's contents are identical before and
after the run. -/
theorem c7_dry_run_frame (env : Env) (s : Bool) (now : Nat) (st : TransferState)
    (posts : List MastodonPost) :
    (transfer_posts env true s now st posts).state = st ∧
    (transfer_posts env true s now st posts).writes = [] ∧
    (transfer_posts env true s now st posts).subs = [] ∧
    (transfer_posts env true s now st posts).uploads = [] := by
  unfold transfer_posts
  split
  · exact ⟨rfl, rfl, rfl, rfl⟩
  · obtain ⟨h1, h2, h3, h4, _⟩ := run_dry env s now posts.reverse (initResult st)
    exact ⟨h1, h2, h3, h4⟩

/-- **C10** (confirmed).  The returned statistics always satisfy
`processed = transferred + skipped + errors`; an empty fetched list returns
all counters zero; and in dry-run mode previews are counted under
`transferred` while the error counter stays zero. -/
theorem c10_stats_partition (env : Env) (d s : Bool) (now : Nat) (st : TransferState)
    (posts : List MastodonPost) :
    ((transfer_posts env d s now st posts).stats.transferred
        + (transfer_posts env d s now st posts).stats.skipped
        + (transfer_posts env d s now st posts).stats.errors
      = (transfer_posts env d s now st posts).stats.processed) ∧
    (transfer_posts env d s now st []).stats = ⟨0, 0, 0, 0⟩ ∧
    (transfer_posts env true s now st posts).stats.errors = 0 := by
  refine ⟨?_, rfl, ?_⟩
  · unfold transfer_posts
    split
    · rfl
    · rw [run_sum, run_processed]
      simp [initResult]
  · unfold transfer_posts
    split
    · rfl
    · exact (run_dry env s now posts.reverse (initResult st)).2.2.2.2

/-- **C8** (corrected).  An absent state file yields a fresh empty
`TransferState` but — unlike the claim — *without* a warning: the code only
prints `Warning: Could not load state file` when the file exists and
reading or parsing it raises.  Here `_load_state now none = (fresh, false)`,
where the second component records whether the warning was emitted. -/
theorem c8_counterexample : _load_state 0 none = (⟨none, [], 0⟩, false) := rfl

/-- **C8** (corrected, amended).  `_load_state` never fails: an absent state
file yields a fresh empty state silently, and a present but
unreadable/unparseable file yields a fresh empty state together with the
recoverable warning. -/
theorem c8_load_state (now : Nat) :
    _load_state now none = (⟨none, [], now⟩, false) ∧
    _load_state now (some none) = (⟨none, [], now⟩, true) := ⟨rfl, rfl⟩

/-- **C9** (confirmed).  `_html_to_text "<p>Hello</p><p>World</p>"` is
exactly `"Hello\n\nWorld"`, and for a post with a truthy (non-empty)
content warning the final text handed to the segmenter is exactly
`"CW: " ++ warning ++ "\n\n" ++` the normalized body. -/
theorem c9_normalizer (p : MastodonPost) (h : p.spoiler_text ≠ "") :
    _html_to_text "<p>Hello</p><p>World</p>" = "Hello\n\nWorld" ∧
    post_full_text p = "CW: " ++ p.spoiler_text ++ "\n\n" ++ _html_to_text p.content := by
  refine ⟨by decide, ?_⟩
  unfold post_full_text
  rw [if_neg h]

/-- Witness for C9 at the concrete post `pCW` (body `"hello"`, warning
`"s"`). -/
theorem c9_normalizer_witness :
    pCW.spoiler_text ≠ "" ∧ post_full_text pCW = "CW: s\n\nhello" := by
  refine ⟨by decide, ?_⟩
  rw [(c9_normalizer pCW (by decide)).2]
  decide

/-! # C1: the segmenter's length bound -/

theorem growChunk_length (cc piece : List Char) :
    (growChunk cc piece).length ≤ cc.length + 1 + piece.length := by
  unfold growChunk
  split <;> simp <;> omega

theorem splitSents_bound (B : Nat) (hB : 13 ≤ B) :
    ∀ (ss : List (List Char)), (∀ s ∈ ss, s.length + 13 ≤ B) →
      ∀ (chunks : List (List Char)) (cc : List Char),
        (∀ c ∈ chunks, c.length ≤ B) → cc.length + 10 ≤ B →
        (∀ c ∈ (splitSents B chunks cc ss).1, c.length ≤ B) ∧
          (splitSents B chunks cc ss).2.length + 10 ≤ B := by
  intro ss
  induction ss with
  | nil =>
    intro _ chunks cc hch hcc
    exact ⟨hch, hcc⟩
  | cons s ss ih =>
    intro hs chunks cc hch hcc
    have hsb : s.length + 13 ≤ B := hs s (List.mem_cons_self s ss)
    have hss : ∀ t ∈ ss, t.length + 13 ≤ B := fun t ht => hs t (List.mem_cons_of_mem s ht)
    have hnot : ¬ ((B : Int) < (s.length : Int)) := by omega
    rw [splitSents, if_neg hnot]
    by_cases h2 : ((cc.length : Int) + (s.length : Int) + 1 : Int) ≤ (B : Int) - 10
    · rw [if_pos h2]
      exact ih hss chunks (growChunk cc s) hch
        (by have := growChunk_length cc s; omega)
    · rw [if_neg h2]
      apply ih hss
      · intro c hc
        by_cases hcc0 : cc = []
        · rw [if_pos hcc0] at hc
          exact hch c hc
        · rw [if_neg hcc0] at hc
          rcases List.mem_append.mp hc with h | h
          · exact hch c h
          · simp only [List.mem_singleton] at h
            subst h
            simp [dots]
            omega
      · simp [dots]
        omega

theorem splitTextChunks_bound (text : List Char) (B : Nat) (hB : 13 ≤ B)
    (hs : ∀ s ∈ splitSentences text, s.length + 13 ≤ B) :
    ∀ c ∈ splitTextChunks text B, c.length ≤ B := by
  unfold splitTextChunks
  split
  · intro c hc
    simp only [List.mem_singleton] at hc
    subst hc
    omega
  · obtain ⟨h1, h2⟩ := splitSents_bound B hB (splitSentences text) hs [] []
      (by simp) (by simp only [List.length_nil]; omega)
    intro c hc
    rcases List.mem_append.mp hc with h | h
    · exact h1 c h
    · by_cases hr : (splitSents B [] [] (splitSentences text)).2 = []
      · rw [if_pos hr] at h
        simp at h
      · rw [if_neg hr] at h
        simp only [List.mem_singleton] at h
        subst h
        omega

/-- **C1** (corrected, amended).  Not every chunk produced by `_split_text`
(measured before `[i/N]` marker prefixing) fits in the budget `B`: see
`c1_counterexample`.  The bound does hold whenever every sentence of the
`(?<=[.!?])\s+` split is at least 13 characters under the budget (the 10
reserved for the trailing `"..."` plus the 3 of a leading `"..."`): then
every produced chunk has length at most `B`. -/
theorem c1_segmenter_bound (text : String) (B : Nat) (hB : 13 ≤ B)
    (hs : ∀ s ∈ splitSentences text.toList, s.length + 13 ≤ B) :
    ∀ c ∈ _split_text_chunks text B, c.length ≤ B := by
  intro c hc
  unfold _split_text_chunks at hc
  rcases List.mem_map.mp hc with ⟨l, hl, rfl⟩
  exact splitTextChunks_bound text.toList B hB hs l hl

/-- Witness for C1 at the 360-character `wtext` (nine 39-character
sentences) with the code's budget 300: its first chunk is within budget. -/
theorem c1_segmenter_bound_witness :
    ((_split_text_chunks wtext 300).getD 0 "").length ≤ 300 :=
  c1_segmenter_bound wtext 300 (by decide) (by decide) _ (by decide)

/-- **C1** (corrected): counterexample.  On a single 301-character word the
budget-300 call produces the single pre-marker chunk `"..." ++ word` of
length 304 > 300, refuting “every chunk has length at most B”. -/
theorem c1_counterexample :
    ((_split_text_chunks tC1 300).getD 0 "").length = 304 ∧ ¬ (304 ≤ 300) :=
  ⟨by decide, by decide⟩

/-! # State-store membership along a run -/

theorem step_ids_mono (env : Env) (d s : Bool) (now : Nat) (acc : RunResult)
    (p : MastodonPost) (x : String) (hx : x ∈ acc.state.transferred_ids) :
    x ∈ (step env d s now acc p).state.transferred_ids := by
  unfold step
  split
  · exact hx
  · split
    · exact hx
    · rcases h : (_transfer_post env d p).2.2 with _ | e <;>
        simp [h, List.mem_insert_iff, hx]

theorem run_ids_mono (env : Env) (d s : Bool) (now : Nat) :
    ∀ (ps : List MastodonPost) (acc : RunResult) (x : String),
      x ∈ acc.state.transferred_ids →
      x ∈ (runPosts env d s now acc ps).state.transferred_ids := by
  intro ps
  induction ps with
  | nil => intro acc x hx; exact hx
  | cons p ps ih =>
    intro acc x hx
    rw [runPosts_cons]
    exact ih _ x (step_ids_mono env d s now acc p x hx)

theorem step_ids_sub (env : Env) (s : Bool) (now : Nat) (acc : RunResult)
    (p : MastodonPost) (x : String)
    (hx : x ∈ (step env false s now acc p).state.transferred_ids) :
    x ∈ acc.state.transferred_ids ∨ (x = p.id ∧ succeeds env p) := by
  unfold step at hx
  split at hx
  · exact Or.inl hx
  · split at hx
    · exact Or.inl hx
    · rcases h : (_transfer_post env false p).2.2 with _ | e
      · simp only [h] at hx
        rcases List.mem_insert_iff.mp hx with h1 | h1
        · exact Or.inr ⟨h1, h⟩
        · exact Or.inl h1
      · simp only [h] at hx
        exact Or.inl hx

theorem run_ids_sub (env : Env) (s : Bool) (now : Nat) :
    ∀ (ps : List MastodonPost) (acc : RunResult) (x : String),
      x ∈ (runPosts env false s now acc ps).state.transferred_ids →
      x ∈ acc.state.transferred_ids ∨ ∃ q ∈ ps, q.id = x ∧ succeeds env q := by
  intro ps
  induction ps with
  | nil => intro acc x hx; exact Or.inl hx
  | cons p ps ih =>
    intro acc x hx
    rw [runPosts_cons] at hx
    rcases ih _ x hx with h | ⟨q, hq, hqx⟩
    · rcases step_ids_sub env s now acc p x h with h1 | ⟨h1, h2⟩
      · exact Or.inl h1
      · exact Or.inr ⟨p, List.mem_cons_self p ps, h1.symm, h2⟩
    · exact Or.inr ⟨q, List.mem_cons_of_mem p hq, hqx⟩

theorem step_records_self (env : Env) (s : Bool) (now : Nat) (acc : RunResult)
    (p : MastodonPost) (hsc : succeeds env p) :
    p.id ∈ (step env false s now acc p).state.transferred_ids := by
  unfold step
  split
  · next hcond =>
      exact List.elem_iff.mp hcond.2
  · split
    · next hd => simp at hd
    · rcases h : (_transfer_post env false p).2.2 with _ | e
      · simp [h, List.mem_insert_iff]
      · exact absurd h (by simpa [succeeds, h] using hsc)

theorem run_records (env : Env) (s : Bool) (now : Nat) :
    ∀ (ps : List MastodonPost) (acc : RunResult) (p : MastodonPost),
      p ∈ ps → succeeds env p →
      p.id ∈ (runPosts env false s now acc ps).state.transferred_ids := by
  intro ps
  induction ps with
  | nil => intro acc p hp; exact absurd hp (List.not_mem_nil p)
  | cons q ps ih =>
    intro acc p hp hsc
    rw [runPosts_cons]
    rcases List.mem_cons.mp hp with rfl | hp'
    · exact run_ids_mono env false s now ps _ p.id (step_records_self env s now acc p hsc)
    · exact ih _ p hp' hsc

theorem run_covers (env : Env) (s : Bool) (now : Nat) :
    ∀ (ps : List MastodonPost) (acc : RunResult) (p : MastodonPost), p ∈ ps →
      p.id ∈ (runPosts env false s now acc ps).state.transferred_ids ∨ ¬ succeeds env p := by
  intro ps acc p hp
  by_cases hsc : succeeds env p
  · exact Or.inl (run_records env s now ps acc p hp hsc)
  · exact Or.inr hsc

theorem run_no_new (env : Env) (now : Nat) :
    ∀ (ps : List MastodonPost) (acc : RunResult),
      (∀ p ∈ ps, p.id ∈ acc.state.transferred_ids ∨ ¬ succeeds env p) →
      (runPosts env false true now acc ps).stats.transferred = acc.stats.transferred := by
  intro ps
  induction ps with
  | nil => intro acc _; rfl
  | cons p ps ih =>
    intro acc hcov
    have hp := hcov p (List.mem_cons_self p ps)
    have hstep : (step env false true now acc p).state = acc.state ∧
        (step env false true now acc p).stats.transferred = acc.stats.transferred := by
      unfold step
      split
      · exact ⟨rfl, rfl⟩
      · next hcond =>
          split
          · next hd => simp at hd
          · rcases hp with hmem | hfail
            · exact absurd ⟨rfl, List.elem_iff.mpr hmem⟩ hcond
            · rcases h : (_transfer_post env false p).2.2 with _ | e
              · exact absurd h hfail
              · simp [h]
    rw [runPosts_cons, ih (step env false true now acc p) ?_, hstep.2]
    intro q hq
    rcases hcov q (List.mem_cons_of_mem p hq) with h | h
    · exact Or.inl (hstep.1 ▸ h)
    · exact Or.inr h

/-! # C2: idempotency -/

/-- **C2** (corrected): counterexample.  A run over one post whose
submission raises returns `processed = 1`, `transferred = 0`,
`skipped = 0`, `errors = 1`, so `transferred + skipped ≠ processed`,
refuting the claim's first conjunct: errored posts fall in neither
bucket. -/
theorem c2_counterexample :
    ¬ ((transfer_posts envFail false true 0 st0 [pX]).stats.transferred
          + (transfer_posts envFail false true 0 st0 [pX]).stats.skipped
        = (transfer_posts envFail false true 0 st0 [pX]).stats.processed) := by
  decide

/-- **C2** (corrected, amended).  Each run satisfies
`transferred + skipped + errors = processed` (the original equality holds
exactly when `errors = 0`), and a second run over identical input with
skip-existing enabled and dry-run off transfers zero posts: every post
either was recorded by the first run (and is skipped) or deterministically
fails again (and is counted as an error again). -/
theorem c2_idempotency (env : Env) (now now2 : Nat) (st : TransferState)
    (posts : List MastodonPost) :
    ((transfer_posts env false true now st posts).stats.transferred
        + (transfer_posts env false true now st posts).stats.skipped
        + (transfer_posts env false true now st posts).stats.errors
      = (transfer_posts env false true now st posts).stats.processed) ∧
    (transfer_posts env false true now2
        (transfer_posts env false true now st posts).state posts).stats.transferred = 0 := by
  constructor
  · unfold transfer_posts
    split
    · rfl
    · rw [run_sum, run_processed]
      simp [initResult]
  · by_cases hne : posts.isEmpty
    · unfold transfer_posts
      rw [if_pos hne, if_pos hne]
      rfl
    · have e1 : transfer_posts env false true now st posts
          = runPosts env false true now (initResult st) posts.reverse := by
        unfold transfer_posts
        rw [if_neg hne]
      have e2 : transfer_posts env false true now2
            (transfer_posts env false true now st posts).state posts
          = runPosts env false true now2
              (initResult (transfer_posts env false true now st posts).state)
              posts.reverse := by
        unfold transfer_posts
        rw [if_neg hne]
      rw [e2]
      rw [run_no_new env now2 posts.reverse _ ?_]
      · rfl
      · intro p hp
        rcases run_covers env true now posts.reverse (initResult st) p hp with hmem | hfail
        · left
          rw [e1]
          exact hmem
        · exact Or.inr hfail

/-! # C4: submission order -/

theorem createThread_created (env : Env) (t : Nat) (e : Option Embed) :
    ∀ (chunks : List String) (i : Nat) (pr : Option ReplyRef) (x : Submission),
      x ∈ (createThread env t e chunks i pr).1 → x.1.created_at = t := by
  intro chunks
  induction chunks with
  | nil => intro i pr x hx; exact absurd hx (List.not_mem_nil x)
  | cons c rest ih =>
    intro i pr x hx
    simp only [createThread] at hx
    split at hx
    · exact absurd hx (List.not_mem_nil x)
    · rcases List.mem_cons.mp hx with rfl | hx'
      · rfl
      · exact ih _ _ x hx'

theorem transfer_post_created (env : Env) (d : Bool) (p : MastodonPost) (x : Submission)
    (hx : x ∈ (_transfer_post env d p).2.1) : x.1.created_at = p.created_at := by
  simp only [_transfer_post] at hx
  split at hx
  · exact absurd hx (List.not_mem_nil x)
  · exact createThread_created env p.created_at _ _ 0 none x hx

theorem step_subs_block (env : Env) (d s : Bool) (now : Nat) (acc : RunResult)
    (p : MastodonPost) :
    ∃ bl, (step env d s now acc p).subs = acc.subs ++ bl ∧
      ∀ x ∈ bl, x.1.created_at = p.created_at := by
  unfold step
  split
  · exact ⟨[], by simp, by simp⟩
  · split
    · exact ⟨[], by simp, by simp⟩
    · rcases h : (_transfer_post env d p).2.2 with _ | e
      · refine ⟨(_transfer_post env d p).2.1, by simp [h], ?_⟩
        intro x hx
        exact transfer_post_created env d p x hx
      · refine ⟨(_transfer_post env d p).2.1, by simp [h], ?_⟩
        intro x hx
        exact transfer_post_created env d p x hx

theorem pairwise_const_le (t : Nat) :
    ∀ (l : List Nat), (∀ x ∈ l, x = t) → l.Pairwise (· ≤ ·) := by
  intro l
  induction l with
  | nil => intro _; exact List.Pairwise.nil
  | cons a l ih =>
    intro h
    refine List.Pairwise.cons ?_ (ih fun x hx => h x (List.mem_cons_of_mem a hx))
    intro b hb
    rw [h a (List.mem_cons_self a l), h b (List.mem_cons_of_mem a hb)]

theorem run_sorted (env : Env) (d s : Bool) (now : Nat) :
    ∀ (ps : List MastodonPost) (acc : RunResult),
      ps.Pairwise (fun a b => a.created_at ≤ b.created_at) →
      (acc.subs.map (fun x => x.1.created_at)).Pairwise (· ≤ ·) →
      (∀ x ∈ acc.subs, ∀ q ∈ ps, x.1.created_at ≤ q.created_at) →
      ((runPosts env d s now acc ps).subs.map (fun x => x.1.created_at)).Pairwise (· ≤ ·) := by
  intro ps
  induction ps with
  | nil => intro acc _ h2 _; exact h2
  | cons p ps ih =>
    intro acc h1 h2 h3
    rw [runPosts_cons]
    obtain ⟨bl, hbl, hstamp⟩ := step_subs_block env d s now acc p
    apply ih (step env d s now acc p) h1.tail
    · rw [hbl, List.map_append, List.pairwise_append]
      refine ⟨h2, pairwise_const_le p.created_at _ ?_, ?_⟩
      · intro x hx
        rcases List.mem_map.mp hx with ⟨y, hy, rfl⟩
        exact hstamp y hy
      · intro a ha b hb
        rcases List.mem_map.mp ha with ⟨y, hy, rfl⟩
        rcases List.mem_map.mp hb with ⟨z, hz, rfl⟩
        rw [hstamp z hz]
        exact h3 y hy p (List.mem_cons_self p ps)
    · intro x hx q hq
      rw [hbl] at hx
      rcases List.mem_append.mp hx with h | h
      · exact h3 x h q (List.mem_cons_of_mem p hq)
      · rw [hstamp x h]
        exact (List.pairwise_cons.mp h1).1 q hq

/-- **C4** (corrected): counterexample.  `transfer_posts` only reverses the
fetched list, it never sorts: fetching `[pA, pB]` (oldest first, timestamps
1 then 2) makes the run submit pB (timestamp 2) before pA (timestamp 1), a
decreasing submission order — so the ordering does *not* hold “regardless
of the order in which the source returns them”. -/
theorem c4_counterexample :
    ¬ (((transfer_posts envOk false true 0 st0 [pA, pB]).subs.map
          (fun x => x.1.created_at)).Pairwise (· ≤ ·)) := by
  decide

/-- **C4** (corrected, amended).  Whenever the fetched list is in the
source's native newest-first order (non-increasing creation timestamps),
the run — which processes `posts.reverse()` in order, every submission of a
post carrying that post's creation timestamp — submits to the destination
in non-decreasing creation-timestamp order. -/
theorem c4_ordering (env : Env) (d s : Bool) (now : Nat) (st : TransferState)
    (posts : List MastodonPost)
    (h : posts.Pairwise (fun a b => b.created_at ≤ a.created_at)) :
    ((transfer_posts env d s now st posts).subs.map
        (fun x => x.1.created_at)).Pairwise (· ≤ ·) := by
  unfold transfer_posts
  split
  · simp [initResult]
  · apply run_sorted env d s now posts.reverse (initResult st) ?_
      (by simp [initResult]) (by simp [initResult])
    exact List.pairwise_reverse.mpr h

/-- Witness for C4: fetching `[pB, pA]` (newest first) yields submissions
with non-decreasing timestamps. -/
theorem c4_ordering_witness :
    [pB, pA].Pairwise (fun a b => b.created_at ≤ a.created_at) ∧
    ((transfer_posts envOk false true 0 st0 [pB, pA]).subs.map
        (fun x => x.1.created_at)).Pairwise (· ≤ ·) :=
  ⟨by decide, c4_ordering envOk false true 0 st0 [pB, pA] (by decide)⟩

/-! # C3: the media embed -/

theorem collectImages_ok (env : Env) :
    ∀ atts : List Attachment, (collectImages env atts).2.2 = none →
      (collectImages env atts).1
        = (atts.filter (fun a => a.type == "image")).map (entryOf env) := by
  intro atts
  induction atts with
  | nil => intro _; rfl
  | cons a rest ih =>
    intro h
    by_cases ht : a.type = "image"
    · rcases hd : env.download_media a.url with e | d
      · exfalso
        simp [collectImages, ht, hd] at h
      · rcases hu : env.upload_image d with e | blob
        · exfalso
          simp [collectImages, ht, hd, hu] at h
        · have h' : (collectImages env rest).2.2 = none := by
            simpa [collectImages, ht, hd, hu] using h
          have ht' : (a.type == "image") = true := by simpa using ht
          simp [collectImages, List.filter_cons, ht, ht', hd, hu, entryOf, ih h']
    · have ht' : (a.type == "image") = false := by simpa using ht
      have h' : (collectImages env rest).2.2 = none := by
        simpa [collectImages, ht] using h
      simp [collectImages, List.filter_cons, ht, ht', ih h']

theorem create_media_embed_ok (env : Env) (atts : List Attachment)
    (h : (_create_media_embed env atts).2.2 = none) :
    embedImages (_create_media_embed env atts).1
      = (atts.filter (fun a => a.type == "image")).map (entryOf env) := by
  simp only [_create_media_embed] at h ⊢
  rcases hc : (collectImages env atts).2.2 with _ | e
  · simp only [hc]
    by_cases h0 : (collectImages env atts).1 = []
    · rw [if_pos h0]
      rw [← collectImages_ok env atts hc]
      simp [embedImages, h0]
    · rw [if_neg h0]
      simpa [embedImages] using collectImages_ok env atts hc
  · rw [hc] at h
    simp at h

theorem createThread_head (env : Env) (t : Nat) (e : Option Embed)
    (chunks : List String) (x : Submission)
    (hx : (createThread env t e chunks 0 none).1[0]? = some x) :
    x.1.embed = e ∧ x.1.reply = none := by
  cases chunks with
  | nil => simp [createThread] at hx
  | cons c rest =>
    simp only [createThread] at hx
    split at hx
    · simp at hx
    · simp only [List.getElem?_cons_zero, Option.some.injEq] at hx
      subst hx
      exact ⟨by simp, rfl⟩

/-- **C3** (corrected, amended).  The embed carried by the first request is
built from the *first four attachments* (the `[:4]` slice is taken before
the image filter), keeping only the image-typed ones among them, in
original order — so non-image attachments among the first four do consume
cap slots, and at most 4 images result. -/
theorem c3_media_embed (env : Env) (p : MastodonPost) (x : Submission)
    (herr : (_transfer_post env false p).2.2 = none)
    (hx : (_transfer_post env false p).2.1[0]? = some x) :
    embedImages x.1.embed
      = ((p.media_attachments.take 4).filter (fun a => a.type == "image")).map (entryOf env) ∧
    (embedImages x.1.embed).length ≤ 4 := by
  have hlen : (((p.media_attachments.take 4).filter
      (fun a => a.type == "image")).map (entryOf env)).length ≤ 4 := by
    rw [List.length_map]
    calc ((p.media_attachments.take 4).filter (fun a => a.type == "image")).length
        ≤ (p.media_attachments.take 4).length := List.length_filter_le _ _
      _ ≤ 4 := by rw [List.length_take]; exact min_le_left _ _
  simp only [_transfer_post] at herr hx
  by_cases hm : p.media_attachments = []
  · rw [if_neg (by simp [hm])] at hx
    have he := (createThread_head env p.created_at none _ x hx).1
    rw [he]
    constructor
    · simp [embedImages, hm]
    · simp [embedImages]
  · rw [if_pos ⟨hm, by trivial⟩] at herr hx
    rcases he : (_create_media_embed env (p.media_attachments.take 4)).2.2 with _ | e
    · simp only [he] at herr hx
      have hemb := (createThread_head env p.created_at _ _ x hx).1
      rw [hemb, create_media_embed_ok env _ he]
      exact ⟨rfl, hlen⟩
    · rw [he] at herr
      simp at herr

/-- **C3** (corrected): counterexample.  For one non-image attachment
followed by five images, the claim predicts an embed with 4 images; the
code slices `[:4]` *before* filtering, so only 3 images survive. -/
theorem c3_counterexample :
    ((_transfer_post envOk false p6).2.1[0]?.map
        (fun x => (embedImages x.1.embed).length) = some 3) ∧
    some 3 ≠ some (4 : Nat) :=
  ⟨by decide, by decide⟩

/-- Witness for C3 at `p6` under the always-succeeding collaborators. -/
theorem c3_media_embed_witness :
    ((_transfer_post envOk false p6).2.2 = none) ∧
    embedImages xW.1.embed
      = ((p6.media_attachments.take 4).filter
          (fun a => a.type == "image")).map (entryOf envOk) :=
  ⟨by decide, (c3_media_embed envOk p6 xW (by decide) (by decide)).1⟩

/-! # C6: thread linkage -/

theorem createThread_tail (env : Env) (t : Nat) (e : Option Embed) :
    ∀ (chunks : List String) (i : Nat) (root prev : PostRef), 1 ≤ i →
      (∀ x, (createThread env t e chunks i (some ⟨root, prev⟩)).1[0]? = some x →
          x.1.embed = none ∧ x.1.reply = some ⟨root, prev⟩) ∧
      (∀ k x y, (createThread env t e chunks i (some ⟨root, prev⟩)).1[k + 1]? = some x →
          (createThread env t e chunks i (some ⟨root, prev⟩)).1[k]? = some y →
          x.1.embed = none ∧ x.1.reply = some ⟨root, y.2⟩) := by
  intro chunks
  induction chunks with
  | nil =>
    intro i root prev hi
    exact ⟨fun x hx => by simp [createThread] at hx,
           fun k x y hx hy => by simp [createThread] at hx⟩
  | cons c rest ih =>
    intro i root prev hi
    have hi0 : ¬ i = 0 := by omega
    have hif : ¬ (i = 0 ∧ rest ≠ []) := fun hc => hi0 hc.1
    constructor
    · intro x hx
      simp only [createThread] at hx
      split at hx
      · simp at hx
      · simp only [List.getElem?_cons_zero, Option.some.injEq] at hx
        subst hx
        exact ⟨by simp [hi0], rfl⟩
    · intro k x y hx hy
      simp only [createThread] at hx hy
      split at hx
      · simp at hx
      · next result heq =>
          rw [heq] at hy
          simp only [List.getElem?_cons_succ] at hx
          rw [if_neg hif] at hx
          cases k with
          | zero =>
            simp only [List.getElem?_cons_zero, Option.some.injEq] at hy
            subst hy
            exact (ih (i + 1) root result (by omega)).1 x hx
          | succ k =>
            simp only [List.getElem?_cons_succ] at hy
            rw [if_neg hif] at hy
            exact (ih (i + 1) root result (by omega)).2 k x y hx hy

theorem createThread_zero (env : Env) (t : Nat) (e : Option Embed) (chunks : List String) :
    (∀ x, (createThread env t e chunks 0 none).1[0]? = some x →
        x.1.embed = e ∧ x.1.reply = none) ∧
    (∀ k x y z, (createThread env t e chunks 0 none).1[k + 1]? = some x →
        (createThread env t e chunks 0 none).1[0]? = some z →
        (createThread env t e chunks 0 none).1[k]? = some y →
        x.1.embed = none ∧ x.1.reply = some ⟨z.2, y.2⟩) := by
  refine ⟨fun x hx => createThread_head env t e chunks x hx, ?_⟩
  cases chunks with
  | nil => intro k x y z hx hz hy; simp [createThread] at hx
  | cons c rest =>
    intro k x y z hx hz hy
    simp only [createThread] at hx hz hy
    split at hx
    · simp at hx
    · next result heq =>
        rw [heq] at hz hy
        simp only [List.getElem?_cons_succ] at hx
        simp only [List.getElem?_cons_zero, Option.some.injEq] at hz
        subst hz
        cases hrest : rest with
        | nil =>
          rw [hrest] at hx
          simp [createThread] at hx
        | cons c2 rest2 =>
          rw [hrest] at hx hy
          rw [if_pos (by exact ⟨by trivial, by simp⟩)] at hx
          cases k with
          | zero =>
            simp only [List.getElem?_cons_zero, Option.some.injEq] at hy
            subst hy
            exact (createThread_tail env t e (c2 :: rest2) 1 result result
              (by omega)).1 x hx
          | succ k =>
            simp only [List.getElem?_cons_succ] at hy
            rw [if_pos (by exact ⟨by trivial, by simp⟩)] at hy
            exact (createThread_tail env t e (c2 :: rest2) 1 result result
              (by omega)).2 k x y hx hy

theorem createThread_len (env : Env) (t : Nat) (e : Option Embed) :
    ∀ (chunks : List String) (i : Nat) (pr : Option ReplyRef),
      (createThread env t e chunks i pr).2 = none →
      (createThread env t e chunks i pr).1.length = chunks.length := by
  intro chunks
  induction chunks with
  | nil => intro i pr _; rfl
  | cons c rest ih =>
    intro i pr h
    simp only [createThread] at h ⊢
    split at h
    · simp at h
    · simp at h ⊢
      exact ih _ _ h

theorem createThread_text (env : Env) (t : Nat) (e : Option Embed) :
    ∀ (chunks : List String) (i : Nat) (pr : Option ReplyRef) (k : Nat)
      (x : Submission) (ck : String),
      (createThread env t e chunks i pr).1[k]? = some x → chunks[k]? = some ck →
      x.1.text = (env.create_rich_text ck).1 ∧ x.1.created_at = t := by
  intro chunks
  induction chunks with
  | nil => intro i pr k x ck hx _; simp [createThread] at hx
  | cons c rest ih =>
    intro i pr k x ck hx hck
    simp only [createThread] at hx
    split at hx
    · simp at hx
    · cases k with
      | zero =>
        simp only [List.getElem?_cons_zero, Option.some.injEq] at hx hck
        subst hx
        subst hck
        exact ⟨rfl, rfl⟩
      | succ k =>
        simp only [List.getElem?_cons_succ] at hx hck
        exact ih _ _ k x ck hx hck

/-- **C6** (confirmed).  When `_transfer_post` succeeds, it submits one
request per chunk, in chunk order (request `k`'s text is the rich-text
rendering of chunk `k`, all sharing the source timestamp); request 0
carries no reply linkage; and each request `k+1` carries reply linkage
whose `root` is the PostRef returned for request 0 and whose `parent` is
the PostRef returned for request `k`; only request 0 carries the media
embed. -/
theorem c6_thread_linkage (env : Env) (p : MastodonPost)
    (herr : (_transfer_post env false p).2.2 = none) :
    ((_transfer_post env false p).2.1.length
        = (_split_text (post_full_text p) 300).length) ∧
    (∀ x, (_transfer_post env false p).2.1[0]? = some x → x.1.reply = none) ∧
    (∀ (k : Nat) (x : Submission) (ck : String),
        (_transfer_post env false p).2.1[k]? = some x →
        (_split_text (post_full_text p) 300)[k]? = some ck →
        x.1.text = (env.create_rich_text ck).1 ∧ x.1.created_at = p.created_at) ∧
    (∀ (k : Nat) (x y z : Submission),
        (_transfer_post env false p).2.1[k + 1]? = some x →
        (_transfer_post env false p).2.1[0]? = some z →
        (_transfer_post env false p).2.1[k]? = some y →
        x.1.embed = none ∧ x.1.reply = some ⟨z.2, y.2⟩) := by
  simp only [_transfer_post] at herr ⊢
  rcases he : (if p.media_attachments ≠ [] ∧ True
      then _create_media_embed env (p.media_attachments.take 4)
      else (none, [], none)).2.2 with _ | e
  · simp only [he] at herr ⊢
    refine ⟨?_, ?_, ?_, ?_⟩
    · exact createThread_len env p.created_at _ _ 0 none herr
    · intro x hx
      exact (createThread_head env p.created_at _ _ x hx).2
    · intro k x ck hx hck
      exact createThread_text env p.created_at _ _ 0 none k x ck hx hck
    · intro k x y z hx hz hy
      exact (createThread_zero env p.created_at _ _).2 k x y z hx hz hy
  · rw [he] at herr
    simp at herr

/-- Witness for C6: the two-chunk post `pLong` succeeds and produces
exactly one submission per chunk. -/
theorem c6_thread_linkage_witness :
    ((_transfer_post envOk false pLong).2.2 = none) ∧
    (_transfer_post envOk false pLong).2.1.length
      = (_split_text (post_full_text pLong) 300).length :=
  ⟨by decide, (c6_thread_linkage envOk pLong (by decide)).1⟩

/-! # C5: failure isolation -/

/-- **C5** (corrected, amended).  In the processed sequence
`pre ++ P :: suf` (which is `posts.reverse()`), if `P`'s processing raises —
and, as the counterexample forces, skip-existing is enabled, `P` is not
already recorded, and no other post shares `P`'s identifier — then: the
error counter is incremented by exactly one at `P`'s step; `P`'s identifier
is not in the state store afterwards; the loop continues through `suf`
unchanged; every post is attempted (`processed` = number of fetched
posts); and every post whose processing succeeds is recorded. -/
theorem c5_failure_isolation (env : Env) (now : Nat) (st : TransferState)
    (posts pre suf : List MastodonPost) (P : MastodonPost)
    (hrev : posts.reverse = pre ++ P :: suf)
    (hfail : ¬ succeeds env P)
    (hinit : P.id ∉ st.transferred_ids)
    (hpre : ∀ q ∈ pre, q.id ≠ P.id)
    (hsuf : ∀ q ∈ suf, q.id ≠ P.id) :
    ((step env false true now (runPosts env false true now (initResult st) pre) P).stats.errors
        = (runPosts env false true now (initResult st) pre).stats.errors + 1) ∧
    P.id ∉ (transfer_posts env false true now st posts).state.transferred_ids ∧
    (transfer_posts env false true now st posts
        = runPosts env false true now
            (step env false true now (runPosts env false true now (initResult st) pre) P) suf) ∧
    (transfer_posts env false true now st posts).stats.processed = posts.length ∧
    (∀ q ∈ posts, succeeds env q →
      q.id ∈ (transfer_posts env false true now st posts).state.transferred_ids) := by
  have hne : posts.isEmpty = false := by
    cases posts with
    | nil => simp at hrev
    | cons a l => rfl
  have e0 : transfer_posts env false true now st posts
      = runPosts env false true now
          (step env false true now (runPosts env false true now (initResult st) pre) P) suf := by
    unfold transfer_posts
    rw [hne]
    simp only [Bool.false_eq_true, if_false]
    rw [hrev, runPosts_append]
    rfl
  have hPpre : P.id ∉ (runPosts env false true now (initResult st) pre).state.transferred_ids := by
    intro hmem
    rcases run_ids_sub env true now pre (initResult st) P.id hmem with hi | ⟨q, hq, hqid, _⟩
    · exact hinit hi
    · exact hpre q hq hqid
  have herrstep : (step env false true now
        (runPosts env false true now (initResult st) pre) P).stats.errors
      = (runPosts env false true now (initResult st) pre).stats.errors + 1 := by
    unfold step
    split
    · next hcond => exact absurd (List.elem_iff.mp hcond.2) hPpre
    · split
      · next hd => simp at hd
      · rcases h : (_transfer_post env false P).2.2 with _ | e
        · exact absurd h hfail
        · simp [h]
  refine ⟨herrstep, ?_, e0, ?_, ?_⟩
  · rw [e0]
    intro hmem
    rcases run_ids_sub env true now suf _ P.id hmem with hi | ⟨q, hq, hqid, _⟩
    · rcases step_ids_sub env true now _ P P.id hi with h1 | ⟨_, h2⟩
      · exact hPpre h1
      · exact hfail h2
    · exact hsuf q hq hqid
  · have : transfer_posts env false true now st posts
        = runPosts env false true now (initResult st) posts.reverse := by
      unfold transfer_posts
      rw [hne]
      simp only [Bool.false_eq_true, if_false]
    rw [this, run_processed]
    simp [initResult]
  · intro q hq hsc
    have : transfer_posts env false true now st posts
        = runPosts env false true now (initResult st) posts.reverse := by
      unfold transfer_posts
      rw [hne]
      simp only [Bool.false_eq_true, if_false]
    rw [this]
    exact run_records env true now posts.reverse (initResult st) q
      (List.mem_reverse.mpr hq) hsc

/-- **C5** (corrected): counterexample.  With skip-existing disabled and
`P`'s identifier already recorded before the run, `P`'s failure leaves its
identifier *in* the state store afterwards, contradicting the claim's
unconditional “P's identifier is not a member of the state store's
transferred-id set”. -/
theorem c5_counterexample :
    ¬ succeeds envFail pX ∧
    pX.id ∈ (transfer_posts envFail false false 0 ⟨none, ["4"], 0⟩ [pX]).state.transferred_ids :=
  ⟨by decide, by decide⟩

/-- Witness for C5: posts `[pB, pC, pA]` are processed as `[pA, pC, pB]`;
`pC` (text `"boom"`) fails under `envSel`, bumps the error counter by one,
and is absent from the state store afterwards. -/
theorem c5_failure_isolation_witness :
    (¬ succeeds envSel pC) ∧
    ((step envSel false true 0 (runPosts envSel false true 0 (initResult st0) [pA]) pC).stats.errors
        = (runPosts envSel false true 0 (initResult st0) [pA]).stats.errors + 1) ∧
    pC.id ∉ (transfer_posts envSel false true 0 st0 [pB, pC, pA]).state.transferred_ids := by
  have h := c5_failure_isolation envSel 0 st0 [pB, pC, pA] [pA] [pB] pC
    (by decide) (by decide) (by decide) (by decide) (by decide)
  exact ⟨by decide, h.1, h.2.1⟩

end M2B

-- scratch sanity checks (to be removed)
example : M2B.splitSentences "Hi. Bye.".toList = ["Hi.".toList, "Bye.".toList] := by decide
example : M2B._split_text "hello" 300 = ["hello"] := by decide
example : M2B._html_to_text "<p>Hello</p><p>World</p>" = "Hello\n\nWorld" := by decide
example : M2B._html_to_text "a<br>b" = "a\nb" := by decide
